import Mathlib

/-!
Verification of the Doc-Monitor-MCP ingestion / change-tracking / retrieval
pipeline.  The Python sources under `src/` are shallowly embedded: Python
strings become `List Char`, machine floats become exact rationals `ℚ`
(the scores in scope are sums of small decimal literals), fallible
collaborator calls become `Except`-valued environment functions, and the
Supabase store becomes an explicit list-of-rows state.  Python `str`
operations (`strip`, `split`, `lower`, `in`) and the specific regular
expressions appearing in the sources are embedded as structurally
recursive scanners over `List Char`, each documented with the regex it
implements.  Only ASCII text is modelled (all string constants in the
sources are ASCII).
-/

set_option maxRecDepth 8000

namespace DocMonitor

/-- Python whitespace (`str.strip`, `str.split()`, regex `\s`), ASCII part:
space, tab, newline, carriage return, vertical tab, form feed. -/
def isPySpace (c : Char) : Bool :=
  c = ' ' ∨ c = '\t' ∨ c = '\n' ∨ c = '\x0d' ∨ c = '\x0b' ∨ c = '\x0c'

/-- ASCII lowercase letter, the regex class `[a-z]`. -/
def isLowerAZ (c : Char) : Bool := 'a' ≤ c ∧ c ≤ 'z'

/-- ASCII uppercase letter, the regex class `[A-Z]`. -/
def isUpperAZ (c : Char) : Bool := 'A' ≤ c ∧ c ≤ 'Z'

/-- Sentence-ending punctuation, the regex class `[.!?]`. -/
def isSentPunct (c : Char) : Bool := c = '.' ∨ c = '!' ∨ c = '?'

/-- Python `str.strip()` on ASCII text: drop whitespace from both ends. -/
def stripL (l : List Char) : List Char :=
  ((l.dropWhile isPySpace).reverse.dropWhile isPySpace).reverse

/-- Python `str.lower()` on ASCII text. -/
def lowerL (l : List Char) : List Char := l.map Char.toLower

/-- Python substring test `needle in hay`. -/
def hasInfix (needle : List Char) : List Char → Bool
  | [] => needle.isEmpty
  | c :: rest => needle.isPrefixOf (c :: rest) || hasInfix needle rest

/-- Python `str.split()` with no separator: split on whitespace runs,
discarding empty pieces.  `cur` holds the current piece reversed. -/
def wsplitGo (cur : List Char) : List Char → List (List Char)
  | [] => if cur.isEmpty then [] else [cur.reverse]
  | c :: rest =>
    if isPySpace c then
      if cur.isEmpty then wsplitGo [] rest else cur.reverse :: wsplitGo [] rest
    else wsplitGo (c :: cur) rest

def pySplitWS (l : List Char) : List (List Char) := wsplitGo [] l

/-- Python `str.split('\n\n')`: leftmost, non-overlapping. -/
def parSplitGo (cur : List Char) : List Char → List (List Char)
  | [] => [cur.reverse]
  | '\n' :: '\n' :: rest => cur.reverse :: parSplitGo [] rest
  | c :: rest => parSplitGo (c :: cur) rest

def parSplit (l : List Char) : List (List Char) := parSplitGo [] l

/-- Python `"sep".join(xs)`. -/
def joinWith (sep : List Char) : List (List Char) → List Char
  | [] => []
  | [x] => x
  | x :: y :: rest => x ++ sep ++ joinWith sep (y :: rest)

/-- Scanner for the second lookahead alternative of the header-split regex,
`\n[A-Z][^a-z]*\n`, after the `\n[A-Z]` part has been consumed: with
backtracking over the greedy `[^a-z]*` (which may include newlines), the
remainder matches iff a `'\n'` occurs before any ASCII lowercase letter. -/
def newlineBeforeLower : List Char → Bool
  | [] => false
  | c :: rest => if c = '\n' then true else if isLowerAZ c then false else newlineBeforeLower rest

/-- Literal alternatives of the header-split regex lookahead:
`Introduction|Overview|Getting Started|API|Usage|Example|Reference|Conclusion`. -/
def headerKeywords : List (List Char) :=
  ["Introduction".data, "Overview".data, "Getting Started".data, "API".data,
   "Usage".data, "Example".data, "Reference".data, "Conclusion".data]

/-- The lookahead `(?=#+\s|\n[A-Z][^a-z]*\n|(?:Introduction|...|Conclusion))`
of `AdaptiveChunker._split_by_headers`, applied to the text following a
matched `'\n'`. -/
def headerLookahead (l : List Char) : Bool :=
  (let run := l.takeWhile (· = '#')
   decide (run ≠ []) &&
     (match l.drop run.length with
      | c :: _ => isPySpace c
      | [] => false)) ||
  (match l with
   | '\n' :: c :: rest => isUpperAZ c && newlineBeforeLower rest
   | _ => false) ||
  headerKeywords.any (fun kw => kw.isPrefixOf l)

/-- The split `re.split(r'\n(?=...)', text)` of `_split_by_headers`: each `'\n'`
satisfying the lookahead is a separator (the `'\n'` is consumed). -/
def headerSplitGo (cur : List Char) : List Char → List (List Char)
  | [] => [cur.reverse]
  | c :: rest =>
    if c = '\n' && headerLookahead rest then cur.reverse :: headerSplitGo [] rest
    else headerSplitGo (c :: cur) rest

/-- The split `re.split(r'(?<=[.!?])\s+', text)` of `_split_by_sentences`.
State `st`: `some pp` = accumulating a piece whose previous character was
sentence punctuation iff `pp`; `none` = inside a separator whitespace run. -/
def sentSplitGo (st : Option Bool) (cur : List Char) : List Char → List (List Char)
  | [] => [cur.reverse]
  | c :: rest =>
    match st with
    | none =>
      if isPySpace c then sentSplitGo none [] rest
      else sentSplitGo (some (isSentPunct c)) [c] rest
    | some pp =>
      if pp && isPySpace c then cur.reverse :: sentSplitGo none [] rest
      else sentSplitGo (some (isSentPunct c)) (c :: cur) rest

def sentSplit (l : List Char) : List (List Char) := sentSplitGo (some false) [] l

/-- Suffix of the text after the end of the last non-overlapping match of
`[.!?]\s+` (the `break_points[-1]` slice of `_add_overlap_and_clean`), or
`none` when there is no match.  `inRun = true` means the scanner is inside
the greedy `\s+` of a match. -/
def lastBreakSuffix (inRun : Bool) : List Char → Option (List Char)
  | [] => if inRun then some [] else none
  | c :: rest =>
    if inRun then
      if isPySpace c then lastBreakSuffix true rest
      else if isSentPunct c && (match rest with | r :: _ => isPySpace r | [] => false) then
        lastBreakSuffix true rest
      else some ((lastBreakSuffix false rest).getD (c :: rest))
    else
      if isSentPunct c && (match rest with | r :: _ => isPySpace r | [] => false) then
        lastBreakSuffix true rest
      else lastBreakSuffix false rest

/-- Configuration of `AdaptiveChunker.__init__`
(defaults `max_chunk_size=2000`, `min_chunk_size=100`, `overlap_size=200`). -/
structure ChunkCfg where
  maxChunkSize : Nat
  minChunkSize : Nat
  overlapSize : Nat
deriving DecidableEq, Repr

def defaultChunkCfg : ChunkCfg := ⟨2000, 100, 200⟩

/-- Embeds `AdaptiveChunker._split_by_headers`. -/
def splitByHeaders (text : List Char) : List (List Char) :=
  (headerSplitGo [] text).filter (fun s => ¬ (stripL s).isEmpty)

/-- Embeds `AdaptiveChunker._split_by_sentences`. -/
def splitBySentences (cfg : ChunkCfg) (text : List Char) : List (List Char) :=
  let step := fun (st : List (List Char) × List Char) (s : List Char) =>
    let (chunks, cur) := st
    if cur.length + s.length ≤ cfg.maxChunkSize then
      (chunks, if ¬ cur.isEmpty then cur ++ [' '] ++ s else s)
    else
      ((if ¬ cur.isEmpty then chunks ++ [stripL cur] else chunks), s)
  let fin := (sentSplit text).foldl step ([], [])
  if ¬ fin.2.isEmpty then fin.1 ++ [stripL fin.2] else fin.1

/-- One iteration of the paragraph loop of
`AdaptiveChunker._split_by_paragraphs_and_sentences`. -/
def paraStep (cfg : ChunkCfg) (st : List (List Char) × List Char) (par : List Char) :
    List (List Char) × List Char :=
  let p := stripL par
  if p.isEmpty then st
  else
    let (chunks, cur) := st
    let st1 :=
      if cur.length + p.length > cfg.maxChunkSize ∧ ¬ cur.isEmpty then
        ((if cfg.minChunkSize ≤ (stripL cur).length then chunks ++ [stripL cur] else chunks), p)
      else
        (chunks, if ¬ cur.isEmpty then cur ++ ['\n', '\n'] ++ p else p)
    if cfg.maxChunkSize < st1.2.length then
      let sc := splitBySentences cfg st1.2
      if 1 < sc.length then (st1.1 ++ sc.dropLast, sc.getLastD []) else st1
    else st1

/-- Embeds `AdaptiveChunker._split_by_paragraphs_and_sentences`. -/
def splitByParagraphsAndSentences (cfg : ChunkCfg) (text : List Char) : List (List Char) :=
  let fin := (parSplit text).foldl (paraStep cfg) ([], [])
  if ¬ fin.2.isEmpty ∧ cfg.minChunkSize ≤ (stripL fin.2).length then fin.1 ++ [stripL fin.2]
  else fin.1

/-- Python slice `prev[-overlap_size:]` as used in `_add_overlap_and_clean`
(only reached when `len(prev) > overlap_size`; `prev[-0:]` is all of `prev`). -/
def pyTailSlice (prev : List Char) (k : Nat) : List Char :=
  if k = 0 then prev else prev.drop (prev.length - k)

/-- The overlapped chunk built for index `i ≥ 1` of
`AdaptiveChunker._add_overlap_and_clean` from `chunks[i-1]` and `chunks[i]`. -/
def mkOverlapped (cfg : ChunkCfg) (prev chunk : List Char) : List Char :=
  let ov := if cfg.overlapSize < prev.length then pyTailSlice prev cfg.overlapSize else prev
  let ov2 := (lastBreakSuffix false ov).getD ov
  ov2 ++ ['\n', '\n'] ++ chunk

/-- Embeds `AdaptiveChunker._add_overlap_and_clean`. -/
def addOverlapAndClean (cfg : ChunkCfg) (chunks : List (List Char)) : List (List Char) :=
  if chunks.length ≤ 1 then chunks
  else
    let fin := chunks.take 1 ++
      (chunks.zip chunks.tail).map (fun pr => mkOverlapped cfg pr.1 pr.2)
    fin.filter (fun c => cfg.minChunkSize ≤ (stripL c).length)

/-- Embeds `AdaptiveChunker.semantic_chunk`. -/
def semanticChunk (cfg : ChunkCfg) (text : List Char) : List (List Char) :=
  let st := stripL text
  if text.isEmpty ∨ st.length < cfg.minChunkSize then
    if st.isEmpty then [] else [st]
  else
    let chunks := (splitByHeaders text).map (fun s =>
      if s.length ≤ cfg.maxChunkSize then [stripL s]
      else splitByParagraphsAndSentences cfg s)
    addOverlapAndClean cfg chunks.flatten

/-! ## Stable sort (Python `sorted`)

Python's `sorted` is a stable sort; with a total preorder comparator any
stable sort produces the same list, so a structurally recursive stable
insertion sort is used (it also reduces inside the kernel, unlike
`List.mergeSort`).  `le a b = true` means `a` may stand before `b`. -/

/-- Insert `x` after every `y` with `le y x` (stable position for a
later-arriving element). -/
def insertStable (le : α → α → Bool) (x : α) : List α → List α
  | [] => [x]
  | y :: ys => if le y x then y :: insertStable le x ys else x :: y :: ys

/-- Stable sort by `le`, processing the input left to right. -/
def pySortBy (le : α → α → Bool) (l : List α) : List α :=
  l.foldl (fun acc x => insertStable le x acc) []

/-! ## Impact analysis (`processing.analyze_change_impact`) -/

/-- The `change_details` of a diff-provider change tuple.  A missing key, a JSON
null and a falsy dict (the source's `.get(k, {}) or {}` / `.get(k, "") or ""`
defaulting) are all modelled as `none`. -/
structure ProviderDetails where
  old_content : Option (List Char)
  new_content : Option (List Char)
deriving DecidableEq

/-- A change dict as produced by the `compare_document_versions` diff
provider and consumed by `analyze_change_impact`; `none` fields are missing
keys. -/
structure ProviderChange where
  change_type : Option String
  change_summary : Option String
  change_impact : Option String
  change_details : Option ProviderDetails
deriving DecidableEq

/-- Output dict of `analyze_change_impact`. -/
structure ImpactAnalysis where
  severity : String
  recommendations : List String
  breaking_changes : Bool
  api_changes : Bool
deriving DecidableEq

/-- A regex of `analyze_change_impact`: either a literal, or two literals
joined by `\s+`. -/
inductive PyPat
  | lit : List Char → PyPat
  | ws2 : List Char → List Char → PyPat
deriving DecidableEq

/-- Match `a\s+b` at the head of `t`: since `b` begins with a
non-whitespace character, the greedy `\s+` is equivalent to the maximal
whitespace run. -/
def atWW (a b : List Char) (t : List Char) : Bool :=
  a.isPrefixOf t &&
    (let r := t.drop a.length
     let ws := r.takeWhile isPySpace
     decide (ws ≠ []) && b.isPrefixOf (r.drop ws.length))

/-- Embeds `re.search` of `a\s+b` anywhere in the text. -/
def hasWW (a b : List Char) : List Char → Bool
  | [] => false
  | c :: rest => atWW a b (c :: rest) || hasWW a b rest

/-- Embeds `re.search(pattern, t, re.IGNORECASE)` for the two pattern shapes used;
`t` is the already-lowercased text (all patterns are lowercase ASCII). -/
def patMatch (t : List Char) : PyPat → Bool
  | .lit w => hasInfix w t
  | .ws2 a b => hasWW a b t

/-- The `api_patterns` of `analyze_change_impact`, in source order. -/
def apiPatterns : List PyPat :=
  [.ws2 "api".data "endpoint".data, .ws2 "api".data "version".data,
   .ws2 "request".data "parameters".data, .ws2 "response".data "format".data,
   .ws2 "http".data "method".data, .lit "authentication".data,
   .lit "headers".data, .ws2 "query".data "parameters".data]

/-- The `breaking_patterns` of `analyze_change_impact`, in source order. -/
def breakingPatterns : List PyPat :=
  [.ws2 "breaking".data "change".data, .lit "deprecated".data, .lit "removed".data,
   .lit "no longer supported".data, .lit "changed from".data, .lit "replaced by".data]

/-- Embeds `processing.analyze_change_impact`.  Each pattern loop of the source
breaks after its first match, so a category contributes its (constant)
recommendation exactly once iff some pattern of the category matches. -/
def analyzeChangeImpact (change : ProviderChange) : ImpactAnalysis :=
  let details := change.change_details.getD ⟨none, none⟩
  let t := lowerL (details.new_content.getD [])
  let apiHit := apiPatterns.any (patMatch t)
  let breakingHit := breakingPatterns.any (patMatch t)
  let recs :=
    (if apiHit then
      ["API changes detected. Review API documentation and update client code if necessary."]
     else []) ++
    (if breakingHit then
      ["Breaking changes detected. Immediate action required to update dependent systems."]
     else []) ++
    (match change.change_type.getD "unknown" with
     | "added" => ["New content added. Review for new features or functionality."]
     | "deleted" => ["Content removed. Check if removed functionality needs to be replaced."]
     | "modified" => ["Content modified. Review changes for impact on existing functionality."]
     | _ => [])
  { severity := if breakingHit then "high" else change.change_impact.getD "low",
    recommendations := recs,
    breaking_changes := breakingHit,
    api_changes := apiHit }

/-! ## Embedding wrappers (`embeddings.py`)

The OpenAI client is an environment function `svc`; a raised exception is
an `Except.error`.  Floats are modelled as exact rationals. -/

/-- Embeds `embeddings.batch_create_embeddings`: on service failure, one
1536-dimensional zero vector per input text. -/
def batchCreateEmbeddings (svc : List (List Char) → Except String (List (List ℚ)))
    (texts : List (List Char)) : List (List ℚ) :=
  if texts.isEmpty then []
  else
    match svc texts with
    | .ok vs => vs
    | .error _ => List.replicate texts.length (List.replicate 1536 (0 : ℚ))

/-- Embeds `embeddings.create_single_embedding` (its own `try` body cannot raise:
`batch_create_embeddings` is total and the indexing is guarded). -/
def createSingleEmbedding (svc : List (List Char) → Except String (List (List ℚ)))
    (text : List Char) : List ℚ :=
  match batchCreateEmbeddings svc [text] with
  | [] => List.replicate 1536 (0 : ℚ)
  | e :: _ => e

/-! ## Document store model (`database.py`, schema from `scripts/db_setup.py`)

The `crawled_pages` table is a list of rows.  The insert payload of
`_build_batch_data` has no `version` key, so every inserted row carries the
column default `version = 1` (schema: `version INTEGER NOT NULL DEFAULT 1`);
the version requested by the workflow only lands in the row metadata. -/

/-- The fields of `processing.build_metadata` that the embedded pipeline can
observe (headers, char/word counts, source domain and crawl_time are inert
payload: nothing in the embedded code ever reads them back). -/
structure Meta where
  chunkIndex : Nat
  url : String
  version : Nat
deriving DecidableEq

/-- A `crawled_pages` row. -/
structure PageRow where
  url : String
  chunkNumber : Nat
  content : List Char
  chunkSize : Nat
  meta : Meta
  embedding : List ℚ
  version : Nat
deriving DecidableEq

/-- One chunk to ingest.  The source passes four index-aligned parallel
lists (`urls`, `chunk_numbers`, `contents`, `metadatas`), always built
together with equal lengths; they are fused into one list of items. -/
structure InsertItem where
  url : String
  chunkNumber : Nat
  content : List Char
  meta : Meta
deriving DecidableEq

/-- A `document_changes` row (the aggregated ChangeRecord);
`change_details` is the `{"changes": [...]}` payload. -/
structure ChangeRow where
  url : String
  version : Nat
  change_type : String
  change_summary : String
  change_impact : String
  changesPayload : List (String × String × String × ProviderDetails × ImpactAnalysis)
  created_at : String
deriving DecidableEq

/-- The two tables touched by the change-tracking workflow. -/
structure DB where
  pages : List PageRow
  changes : List ChangeRow
deriving DecidableEq

/-- External collaborators of ingestion and change tracking.  The
concurrent contextualization stage of `_process_contextual_batch` (a
thread pool joined with `as_completed`) is abstracted as one env-supplied
batch transformation; the source's length-mismatch guard is kept. -/
structure WorkEnv where
  embedBatch : List (List Char) → Except String (List (List ℚ))
  useContextual : Bool
  contextualize : List (String × List Char × List Char) → List (List Char)
  compare : String → Nat → Nat → Except String (List (Option ProviderChange))

/-- Successive slices `l[i : i+n]` for `i = 0, n, 2n, ...` (the
`range(0, len(contents), batch_size)` loop); `fuel` bounds the recursion
and is instantiated with `l.length`. -/
def pyGroupsAux (fuel n : Nat) (l : List α) : List (List α) :=
  match fuel with
  | 0 => []
  | f + 1 => if l.isEmpty then [] else l.take n :: pyGroupsAux f n (l.drop n)

def pyGroups (n : Nat) (l : List α) : List (List α) := pyGroupsAux l.length n l

/-- Embeds `database._build_batch_data`: one row per contextual content, indexing
the embeddings list (`none` models the IndexError raised when the service
returned fewer vectors than texts; at every call `cc.length = batch.length`). -/
def buildBatchData (batch : List InsertItem) (cc : List (List Char))
    (es : List (List ℚ)) : Option (List PageRow) :=
  if es.length < cc.length then none
  else
    some (List.zipWith
      (fun (p : InsertItem × List Char) e =>
        { url := p.1.url, chunkNumber := p.1.chunkNumber, content := p.2,
          chunkSize := p.2.length, meta := p.1.meta, embedding := e,
          version := 1 })
      (batch.zip cc) es)

/-- One iteration of the batch loop of `database.batch_upsert_documents`:
optional contextualization, embedding creation, row building. -/
def insertBatch (env : WorkEnv) (urlToFull : String → List Char)
    (batch : List InsertItem) : Option (List PageRow) :=
  let contents := batch.map (·.content)
  let contextual :=
    if env.useContextual then
      let args := batch.map (fun it => (it.url, it.content, urlToFull it.url))
      let c := env.contextualize args
      if c.length ≠ contents.length then contents else c
    else contents
  let es := batchCreateEmbeddings env.embedBatch contextual
  buildBatchData batch contextual es

/-- The batch loop: each successful batch is inserted (appended) before the
next begins; a raised IndexError aborts the loop, leaving the rows of the
prior batches committed (`Except.error` carries that partial state). -/
def runBatches (env : WorkEnv) (urlToFull : String → List Char)
    (acc : List PageRow) : List (List InsertItem) → Except (List PageRow) (List PageRow)
  | [] => .ok acc
  | b :: rest =>
    match insertBatch env urlToFull b with
    | none => .error acc
    | some rows => runBatches env urlToFull (acc ++ rows) rest

/-- Embeds `database.batch_upsert_documents` on the non-failing store path: delete
every `crawled_pages` row whose url occurs among the ingested items (all
versions), then insert the batches in order. -/
def batchUpsertDocuments (env : WorkEnv) (pages : List PageRow)
    (items : List InsertItem) (urlToFull : String → List Char)
    (batchSize : Nat := 20) : Except (List PageRow) (List PageRow) :=
  let uniqueUrls := items.map (·.url)
  let kept := pages.filter (fun r => ¬ uniqueUrls.contains r.url)
  runBatches env urlToFull kept (pyGroups batchSize items)

/-! ## Change-tracking workflow
(`document_workflows.check_and_update_document_changes`) -/

/-- The crawler's answer for the checked url (`result.success`,
`result.markdown`). -/
structure FetchResult where
  success : Bool
  markdown : List Char
deriving DecidableEq

/-- The result dict of `check_and_update_document_changes`; `none` fields
are keys absent from the returned dict.  The per-change entries of
`changes` are the `(type, summary, impact, details, analysis)` tuples. -/
structure CheckResult where
  success : Bool
  url : String
  message : Option String := none
  error : Option String := none
  version : Option Nat := none
  current_version : Option Nat := none
  old_version : Option Nat := none
  new_version : Option Nat := none
  changes_found : Option Nat := none
  changes : List (String × String × String × ProviderDetails × ImpactAnalysis) := []
deriving DecidableEq

/-- The `get_latest_version` SQL function (`scripts/db_setup.py`):
`coalesce(max(version), 0)` over the url's `crawled_pages` rows. -/
def getLatestVersion (pages : List PageRow) (url : String) : Nat :=
  ((pages.filter (fun r => r.url = url)).map (·.version)).foldl max 0

/-- The `crawled_pages` select of the workflow: rows of the url at the
given version, ordered by `chunk_number`. -/
def selectVersionRows (pages : List PageRow) (url : String) (v : Nat) : List PageRow :=
  pySortBy (fun a b => a.chunkNumber ≤ b.chunkNumber)
    (pages.filter (fun r => r.url = url ∧ r.version = v))

/-- The join `"\n".join(chunk["content"] for chunk in data if chunk.get("content"))`
over the selected rows. -/
def reconstructText (pages : List PageRow) (url : String) (v : Nat) : List Char :=
  joinWith ['\n']
    (((selectVersionRows pages url v).map (·.content)).filter (fun c => ¬ c.isEmpty))

/-- The `for i, chunk in enumerate(chunks)` loops of
`_store_initial_version` / `_store_new_version_and_detect_changes`,
building the four parallel lists (fused into items); `v` is the version
written into `build_metadata`. -/
def mkItems (url : String) (chunks : List (List Char)) (v : Nat) : List InsertItem :=
  chunks.enum.map (fun p =>
    { url := url, chunkNumber := p.1, content := p.2,
      meta := { chunkIndex := p.1, url := url, version := v } })

/-- Python string `<`: lexicographic by code point, over the underlying
character lists. -/
def pyStrLt : List Char → List Char → Bool
  | [], [] => false
  | [], _ :: _ => true
  | _ :: _, [] => false
  | a :: as, b :: bs => if a < b then true else if b < a then false else pyStrLt as bs

/-- Python `max()` over a nonempty list of strings: lexicographic by code
point (so `"high" < "low" < "medium"`), keeping the current value on ties. -/
def pyMaxString (x : String) (xs : List String) : String :=
  xs.foldl (fun a b => if pyStrLt a.data b.data then b else a) x

/-- The per-change processing loop over `comparison.data`: falsy entries
are skipped, the remaining dicts are defaulted, analyzed and collected as
`(type, summary, impact, details, analysis)`. -/
def processProviderChanges (raw : List (Option ProviderChange)) :
    List (String × String × String × ProviderDetails × ImpactAnalysis) :=
  raw.filterMap (fun oc => oc.map (fun c =>
    let ctype := c.change_type.getD "unknown"
    let summary := c.change_summary.getD "No summary available"
    let impact := c.change_impact.getD "low"
    let details := c.change_details.getD ⟨none, none⟩
    let analysis := analyzeChangeImpact ⟨some ctype, some summary, some impact, some details⟩
    (ctype, summary, impact, details, analysis)))

/-- The `document_changes` upsert with `on_conflict="url,version"`: replace the
conflicting row in place, else append. -/
def upsertChangeRow (changes : List ChangeRow) (r : ChangeRow) : List ChangeRow :=
  if changes.any (fun c => c.url = r.url ∧ c.version = r.version) then
    changes.map (fun c => if c.url = r.url ∧ c.version = r.version then r else c)
  else changes ++ [r]

def mkChangeSummary (n v : Nat) : String :=
  "Found " ++ toString n ++ " changes in version " ++ toString v

/-- Embeds `document_workflows._store_initial_version` (a raised store exception
reaches the caller's outer handler, which returns `success: False`). -/
def storeInitialVersion (env : WorkEnv) (db : DB) (url : String)
    (markdown : List Char) (chunks : List (List Char)) : CheckResult × DB :=
  let items := mkItems url chunks 1
  let urlToFull := fun u => if u = url then markdown else []
  match batchUpsertDocuments env db.pages items urlToFull with
  | .error pagesPart =>
    ({ success := false, url := url, error := some "IndexError" },
     { db with pages := pagesPart })
  | .ok pages1 =>
    ({ success := true, url := url,
       message := some "First version of document stored", version := some 1 },
     { db with pages := pages1 })

/-- Embeds `document_workflows._store_new_version_and_detect_changes`. -/
def storeNewVersionAndDetectChanges (env : WorkEnv) (db : DB) (url : String)
    (markdown : List Char) (chunks : List (List Char)) (currentVersion : Nat)
    (now : String) : CheckResult × DB :=
  let newVersion := currentVersion + 1
  let items := mkItems url chunks newVersion
  let urlToFull := fun u => if u = url then markdown else []
  match batchUpsertDocuments env db.pages items urlToFull with
  | .error pagesPart =>
    ({ success := false, url := url, error := some "IndexError" },
     { db with pages := pagesPart })
  | .ok pages1 =>
    match env.compare url currentVersion newVersion with
    | .error e =>
      ({ success := false, url := url,
         error := some ("Error comparing versions: " ++ e) },
       { db with pages := pages1 })
    | .ok raw =>
      let changes := processProviderChanges raw
      let db1 :=
        match changes with
        | [] => { db with pages := pages1 }
        | c0 :: crest =>
          let record : ChangeRow :=
            { url := url, version := newVersion,
              change_type := if ¬ crest.isEmpty then "multiple" else c0.1,
              change_summary := mkChangeSummary changes.length newVersion,
              change_impact := pyMaxString c0.2.2.1 (crest.map (fun c => c.2.2.1)),
              changesPayload := changes, created_at := now }
          { pages := pages1, changes := upsertChangeRow db.changes record }
      ({ success := true, url := url, old_version := some currentVersion,
         new_version := some newVersion, changes_found := some changes.length,
         changes := changes }, db1)

/-- Embeds `document_workflows.check_and_update_document_changes` on a given store
state, crawler answer and diff-provider behaviour (`now` is the
`datetime.utcnow()` timestamp). -/
def checkAndUpdateDocumentChanges (env : WorkEnv) (db : DB) (url : String)
    (fetch : FetchResult) (now : String) : CheckResult × DB :=
  let currentVersion := getLatestVersion db.pages url
  if ¬ fetch.success ∨ fetch.markdown.isEmpty then
    ({ success := false, url := url, error := some "Failed to crawl document" }, db)
  else
    let chunks := semanticChunk defaultChunkCfg fetch.markdown
    if currentVersion = 0 then
      storeInitialVersion env db url fetch.markdown chunks
    else
      let rows := selectVersionRows db.pages url currentVersion
      if rows.isEmpty then
        ({ success := false, url := url,
           error := some "Could not find current version content in database" }, db)
      else
        let currentText :=
          joinWith ['\n'] ((rows.map (·.content)).filter (fun c => ¬ c.isEmpty))
        if currentText = fetch.markdown then
          ({ success := true, url := url, message := some "No changes detected",
             current_version := some currentVersion, changes_found := some 0 }, db)
        else
          storeNewVersionAndDetectChanges env db url fetch.markdown chunks
            currentVersion now

/-! ## Hybrid search (`search.py`) -/

/-- Chunk metadata as read by the reranker (`metadata.get('headers', '')`,
`metadata.get('section')`). -/
structure SMeta where
  headers : List Char
  sectionTag : Option String
deriving DecidableEq

/-- A search-result row. `rerankScore` is the `rerank_score` key, absent
until `_rerank_results` assigns it. -/
structure SRow where
  url : String
  chunkNumber : Nat
  content : List Char
  metadata : SMeta
  similarity : ℚ
  rerankScore : Option ℚ := none
deriving DecidableEq

/-- The `filter_metadata` argument: an opaque payload passed through to the store. -/
abbrev MetaFilter := List (String × String)

/-- Search collaborators: embedding service, the two vector-search RPCs and
the keyword ILIKE query.  An `Except.error` is a raised exception; a JSON
null `data` is the empty list. -/
structure SearchEnv where
  embedBatch : List (List Char) → Except String (List (List ℚ))
  enhancedMatch : List ℚ → Nat → Option MetaFilter → ℚ → Except String (List SRow)
  matchPages : List ℚ → Nat → Option MetaFilter → Except String (List SRow)
  keywordQuery : List Char → Option MetaFilter → Except String (List SRow)

/-- Embeds `search.semantic_search_documents` (its `try` wraps only the RPC;
failure returns `[]`). -/
def semanticSearchDocuments (env : SearchEnv) (query : List Char)
    (matchCount : Nat) (filterMeta : Option MetaFilter) : Except String (List SRow) :=
  let emb := createSingleEmbedding env.embedBatch query
  match env.matchPages emb matchCount filterMeta with
  | .ok rows => .ok rows
  | .error _ => .ok []

/-- The abbreviation-expansion dict of `_preprocess_query`, in insertion
order. -/
def queryExpansions : List (List Char × List Char) :=
  [("api".data, "API application programming interface".data),
   ("auth".data, "authentication authorization".data),
   ("db".data, "database".data),
   ("ui".data, "user interface".data),
   ("ux".data, "user experience".data),
   ("ssl".data, "SSL secure socket layer".data),
   ("http".data, "HTTP hypertext transfer protocol".data),
   ("json".data, "JSON javascript object notation".data),
   ("xml".data, "XML extensible markup language".data)]

/-- Embeds `search._preprocess_query`: `re.sub(r'\s+', ' ', query.strip())` is
joining the whitespace-separated words with single spaces; each
abbreviation found in the collapsed query's lowercase form appends its
expansion (the lowercase form is computed once, before any append). -/
def preprocessQuery (query : List Char) : List Char :=
  let q0 := joinWith [' '] (pySplitWS query)
  let ql := lowerL q0
  queryExpansions.foldl
    (fun q pr => if hasInfix pr.1 ql then q ++ [' '] ++ pr.2 else q) q0

/-- Embeds `search._enhanced_vector_search` (RPC failure falls back to
`semantic_search_documents`). -/
def enhancedVectorSearch (env : SearchEnv) (query : List Char) (matchCount : Nat)
    (filterMeta : Option MetaFilter) (thr : ℚ) : Except String (List SRow) :=
  let emb := createSingleEmbedding env.embedBatch query
  match env.enhancedMatch emb matchCount filterMeta thr with
  | .ok rows => .ok rows
  | .error _ => semanticSearchDocuments env query matchCount filterMeta

/-- Embeds `search._keyword_search`: ILIKE pattern `%term1 term2 ...%`, fixed
similarity 0.5, first 10 rows; any failure yields `[]`. -/
def keywordSearch (env : SearchEnv) (query : List Char)
    (filterMeta : Option MetaFilter) : Except String (List SRow) :=
  let terms := pySplitWS (lowerL query)
  if terms.isEmpty then .ok []
  else
    match env.keywordQuery (['%'] ++ joinWith [' '] terms ++ ['%']) filterMeta with
    | .ok rows =>
      .ok ((rows.map (fun r => { r with similarity := (1 : ℚ)/2 })).take 10)
    | .error _ => .ok []

/-- One step of the dedup loops of `_combine_search_results`: state is
(`seen_chunks`, `combined`). -/
def combineStep (st : List (String × Nat) × List SRow) (r : SRow) :
    List (String × Nat) × List SRow :=
  let key := (r.url, r.chunkNumber)
  if st.1.contains key then st else (key :: st.1, st.2 ++ [r])

/-- Embeds `search._combine_search_results`: vector results first, then keyword
results whose `(url, chunk_number)` key is new. -/
def combineSearchResults (vres kres : List SRow) : List SRow :=
  (kres.foldl combineStep (vres.foldl combineStep ([], []))).2

/-- The set `set(query.lower().split())` — only membership and the number of
distinct matching terms are ever used, so the set is the deduplicated word
list. -/
def queryTerms (q : List Char) : List (List Char) := (pySplitWS (lowerL q)).eraseDups

/-- The count `sum(1 for term in query_terms if term in content)` over the lowercased
content. -/
def exactTermCount (q : List Char) (r : SRow) : Nat :=
  ((queryTerms q).filter (fun t => hasInfix t (lowerL r.content))).length

/-- The test `any(term in headers.lower() for term in query_terms)`. -/
def headerHit (q : List Char) (r : SRow) : Bool :=
  (queryTerms q).any (fun t => hasInfix t (lowerL r.metadata.headers))

/-- The test `metadata.get('section') in ['info', 'endpoint']`. -/
def sectionHit (r : SRow) : Bool :=
  r.metadata.sectionTag = some "info" ∨ r.metadata.sectionTag = some "endpoint"

/-- The heuristic score of `_rerank_results`:
`similarity + exact_matches*0.1 + header_boost + section_boost`. -/
def rerankScoreOf (q : List Char) (r : SRow) : ℚ :=
  r.similarity + (exactTermCount q r : ℚ) * (1/10) +
    (if headerHit q r then 15/100 else 0) + (if sectionHit r then 1/10 else 0)

/-- The sort key `x.get('rerank_score', 0)`. -/
def scoreKey (r : SRow) : ℚ := r.rerankScore.getD 0

/-- Embeds `search._rerank_results`: assign scores, stable-sort descending
(`sorted(..., reverse=True)`), truncate to `top_k`.  (Its `try` body has no
failing operation in the model.) -/
def rerankResults (q : List Char) (results : List SRow) (topK : Nat) : List SRow :=
  let scored := results.map (fun r => { r with rerankScore := some (rerankScoreOf q r) })
  (pySortBy (fun a b => scoreKey b ≤ scoreKey a) scored).take topK

/-- The `try` body of `search.improved_semantic_search`; collaborator
exceptions not caught by the inner helpers propagate as `Except.error`. -/
def improvedSemanticSearchBody (env : SearchEnv) (query : List Char)
    (matchCount : Nat) (filterMeta : Option MetaFilter) (thr : ℚ)
    (enableReranking : Bool) : Except String (List SRow) := do
  let processed := preprocessQuery query
  let initialCount := if enableReranking then matchCount * 3 else matchCount
  let vres ← enhancedVectorSearch env processed initialCount filterMeta thr
  if vres.isEmpty then return []
  let kres ← keywordSearch env query filterMeta
  let combined := combineSearchResults vres kres
  if enableReranking ∧ matchCount < combined.length then
    return rerankResults query combined matchCount
  else
    return combined.take matchCount

/-- Embeds `search.improved_semantic_search`: the outer handler falls back to
`semantic_search_documents` with the original arguments. -/
def improvedSemanticSearch (env : SearchEnv) (query : List Char)
    (matchCount : Nat) (filterMeta : Option MetaFilter) (thr : ℚ)
    (enableReranking : Bool) : Except String (List SRow) :=
  match improvedSemanticSearchBody env query matchCount filterMeta thr enableReranking with
  | .ok r => .ok r
  | .error _ => semanticSearchDocuments env query matchCount filterMeta

/-! ## Claim-statement definitions -/

/-- The chunk-coverage claim (C4) as stated: a non-empty input yields at
least one chunk, and every chunk except possibly the final one has trimmed
length within `[min_chunk_size, max_chunk_size + overlap_size]`. -/
def chunkCoverageClaim (cfg : ChunkCfg) (text : List Char) : Prop :=
  text ≠ [] →
    semanticChunk cfg text ≠ [] ∧
    ∀ i, i + 1 < (semanticChunk cfg text).length →
      cfg.minChunkSize ≤ (stripL ((semanticChunk cfg text).getD i [])).length ∧
      (stripL ((semanticChunk cfg text).getD i [])).length ≤
        cfg.maxChunkSize + cfg.overlapSize

/-- Modelled from the spec: the severity ordering `low < medium < high` on
`change_impact` values, for comparing the aggregated impact the spec
prescribes with the one the code computes. -/
def sevRank (s : String) : Nat :=
  if s = "high" then 2 else if s = "medium" then 1 else 0

/-- Modelled from the spec: `max(severities)` under `low < medium < high`. -/
def specSeverityMax (x : String) (xs : List String) : String :=
  xs.foldl (fun a b => if sevRank a < sevRank b then b else a) x

/-- The `(url, chunk_number)` dedup key of `_combine_search_results`. -/
def ckey (r : SRow) : String × Nat := (r.url, r.chunkNumber)

/-! ## Concrete instances used by counterexamples and witnesses -/

/-- A 20-character single-"sentence" paragraph followed by a short one:
with `max_chunk_size = 10`, `min_chunk_size = 3`, `overlap_size = 5` the
unsplittable first paragraph is emitted whole as a NON-final chunk of
trimmed length 20 > 10 + 5. -/
def c4Text : List Char := "aaaaaaaaaaaaaaaaaaaa\n\nbbbb".data

def c8WitnessChange : ProviderChange :=
  ⟨some "modified", some "summary", some "low",
   some ⟨none, some "The v1 endpoint is DEPRECATED since June.".data⟩⟩

def c10Svc : List (List Char) → Except String (List (List ℚ)) :=
  fun _ => .error "service down"

def c6Row (u : String) (n : Nat) (sim : ℚ) : SRow :=
  { url := u, chunkNumber := n, content := [], metadata := ⟨[], none⟩,
    similarity := sim, rerankScore := none }

def c5Env : SearchEnv :=
  { embedBatch := fun _ => .error "down",
    enhancedMatch := fun _ _ _ _ => .error "down",
    matchPages := fun _ _ _ => .error "down",
    keywordQuery := fun _ _ => .error "down" }

def c7r1 : SRow :=
  { url := "u1", chunkNumber := 0, content := "xyz".data,
    metadata := ⟨"## Auth".data, none⟩, similarity := 1/2, rerankScore := none }

def c7r2 : SRow :=
  { url := "u2", chunkNumber := 1, content := "xyz".data,
    metadata := ⟨[], none⟩, similarity := 1/2, rerankScore := none }

def c1Row : PageRow :=
  { url := "u", chunkNumber := 0, content := "Hello doc.".data, chunkSize := 10,
    meta := ⟨0, "u", 1⟩, embedding := [], version := 1 }

def c1Env : WorkEnv :=
  { embedBatch := fun _ => .error "down", useContextual := false,
    contextualize := fun _ => [], compare := fun _ _ _ => .error "down" }

def c3Env : WorkEnv :=
  { embedBatch := fun ts => .ok (ts.map (fun _ => [])), useContextual := false,
    contextualize := fun _ => [], compare := fun _ _ _ => .error "unused" }

def c3Fetch : FetchResult := ⟨true, "Hello world doc.".data⟩

def c9RowA : PageRow :=
  { url := "u", chunkNumber := 0, content := "old v1".data, chunkSize := 6,
    meta := ⟨0, "u", 1⟩, embedding := [], version := 1 }

def c9RowB : PageRow :=
  { url := "u", chunkNumber := 0, content := "old v2".data, chunkSize := 6,
    meta := ⟨0, "u", 2⟩, embedding := [], version := 2 }

def c9RowW : PageRow :=
  { url := "w", chunkNumber := 0, content := "other".data, chunkSize := 5,
    meta := ⟨0, "w", 1⟩, embedding := [], version := 1 }

def c9Items : List InsertItem := [⟨"u", 0, "new".data, ⟨0, "u", 3⟩⟩]

def c9Env : WorkEnv :=
  { embedBatch := fun ts => .ok (ts.map (fun _ => [])), useContextual := false,
    contextualize := fun _ => [], compare := fun _ _ _ => .error "unused" }

def c9NewRow : PageRow :=
  { url := "u", chunkNumber := 0, content := "new".data, chunkSize := 3,
    meta := ⟨0, "u", 3⟩, embedding := [], version := 1 }

def c2Row : PageRow :=
  { url := "u", chunkNumber := 0, content := "Old text.".data, chunkSize := 9,
    meta := ⟨0, "u", 1⟩, embedding := [], version := 1 }

def c2Db : DB := { pages := [c2Row], changes := [] }

def c2Change (imp : String) : Option ProviderChange :=
  some ⟨some "modified", some "s", some imp, some ⟨none, none⟩⟩

def c2Env : WorkEnv :=
  { embedBatch := fun ts => .ok (ts.map (fun _ => [])), useContextual := false,
    contextualize := fun _ => [],
    compare := fun _ _ _ => .ok [c2Change "high", c2Change "low"] }

def c2Fetch : FetchResult := ⟨true, "New text.".data⟩

/-! # Theorems -/

/-! ## Generic list lemmas -/

theorem insertStable_perm (le : α → α → Bool) (x : α) (l : List α) :
    (insertStable le x l).Perm (x :: l) := by
  induction l with
  | nil => simp [insertStable]
  | cons y ys ih =>
    by_cases h : le y x = true
    · simpa [insertStable, h] using ((ih.cons y).trans (List.Perm.swap x y ys))
    · simp [insertStable, h]

theorem pySortBy_perm_aux (le : α → α → Bool) :
    ∀ (l : List α) (acc : List α),
      (l.foldl (fun acc x => insertStable le x acc) acc).Perm (acc ++ l) := by
  intro l
  induction l with
  | nil => intro acc; simp
  | cons x xs ih =>
    intro acc
    have h1 := ih (insertStable le x acc)
    have h2 : (insertStable le x acc ++ xs).Perm (acc ++ x :: xs) := by
      have := (insertStable_perm le x acc).append_right xs
      exact this.trans List.perm_middle.symm
    simpa using h1.trans h2

theorem pySortBy_perm (le : α → α → Bool) (l : List α) : (pySortBy le l).Perm l := by
  simpa using pySortBy_perm_aux le l []

theorem insertStable_pairwise (le : α → α → Bool)
    (htot : ∀ a b, le a b = true ∨ le b a = true)
    (htrans : ∀ a b c, le a b = true → le b c = true → le a c = true)
    (x : α) (l : List α) (hl : l.Pairwise (fun a b => le a b = true)) :
    (insertStable le x l).Pairwise (fun a b => le a b = true) := by
  induction l with
  | nil => simp [insertStable]
  | cons y ys ih =>
    rcases List.pairwise_cons.mp hl with ⟨hy, hys⟩
    by_cases h : le y x = true
    · have hrec := ih hys
      have hmem : ∀ z ∈ insertStable le x ys, le y z = true := by
        intro z hz
        have hzc : z ∈ x :: ys := (insertStable_perm le x ys).mem_iff.mp hz
        rcases List.mem_cons.mp hzc with rfl | hz2
        · exact h
        · exact hy _ hz2
      simpa [insertStable, h] using List.pairwise_cons.mpr ⟨hmem, hrec⟩
    · have hxy : le x y = true := (htot x y).resolve_right (by simpa using h)
      have hmem : ∀ z ∈ y :: ys, le x z = true := by
        intro z hz
        rcases List.mem_cons.mp hz with rfl | hz2
        · exact hxy
        · exact htrans x y z hxy (hy _ hz2)
      simpa [insertStable, h] using List.pairwise_cons.mpr ⟨hmem, hl⟩

theorem pySortBy_pairwise (le : α → α → Bool)
    (htot : ∀ a b, le a b = true ∨ le b a = true)
    (htrans : ∀ a b c, le a b = true → le b c = true → le a c = true)
    (l : List α) : (pySortBy le l).Pairwise (fun a b => le a b = true) := by
  suffices h : ∀ (l acc : List α), acc.Pairwise (fun a b => le a b = true) →
      (l.foldl (fun acc x => insertStable le x acc) acc).Pairwise
        (fun a b => le a b = true) by
    exact h l [] (by simp)
  intro l
  induction l with
  | nil => intro acc hacc; simpa using hacc
  | cons x xs ih =>
    intro acc hacc
    exact ih _ (insertStable_pairwise le htot htrans x acc hacc)

theorem foldl_max_mem (l : List Nat) (a : Nat) :
    l.foldl max a = a ∨ l.foldl max a ∈ l := by
  induction l generalizing a with
  | nil => simp
  | cons x xs ih =>
    rcases ih (max a x) with h | h
    · rcases max_choice a x with hm | hm
      · left; simp only [List.foldl_cons]; rw [h, hm]
      · right; simp only [List.foldl_cons]; rw [h, hm]; exact List.mem_cons_self x xs
    · right; simp only [List.foldl_cons]; exact List.mem_cons_of_mem x h

/-! ## C8: impact escalation on "deprecated" -/

/-- C8: for every change tuple whose `change_details.new_content` contains
the substring "deprecated" case-insensitively, `analyze_change_impact`
sets `breaking_changes = true` and `severity = "high"`, regardless of the
provider-reported `change_impact`. -/
theorem claim_C8_impact_escalation (change : ProviderChange)
    (h : hasInfix "deprecated".data
      (lowerL (((change.change_details.getD ⟨none, none⟩).new_content).getD [])) = true) :
    (analyzeChangeImpact change).breaking_changes = true ∧
    (analyzeChangeImpact change).severity = "high" := by
  have hb : breakingPatterns.any
      (patMatch (lowerL (((change.change_details.getD ⟨none, none⟩).new_content).getD [])))
      = true := by
    apply List.any_eq_true.mpr
    refine ⟨.lit "deprecated".data, ?_, h⟩
    simp [breakingPatterns]
  constructor
  · simp [analyzeChangeImpact, hb]
  · simp [analyzeChangeImpact, hb]

theorem claim_C8_witness :
    (analyzeChangeImpact c8WitnessChange).breaking_changes = true ∧
    (analyzeChangeImpact c8WitnessChange).severity = "high" :=
  claim_C8_impact_escalation c8WitnessChange (by decide)

/-! ## C10: embedding wrappers are total with zero-vector fallback -/

/-- C10: for every non-empty list of texts, `batch_create_embeddings`
returns one vector per text even when the service fails, each being the
1536-dimensional zero vector; `create_single_embedding` likewise returns
the zero vector on service failure instead of raising. -/
theorem claim_C10_embedding_fallback
    (svc : List (List Char) → Except String (List (List ℚ)))
    (texts : List (List Char)) (e : String)
    (hne : texts ≠ []) (hfail : svc texts = .error e) :
    (batchCreateEmbeddings svc texts).length = texts.length ∧
    (∀ v ∈ batchCreateEmbeddings svc texts, v = List.replicate 1536 (0 : ℚ)) ∧
    ∀ (text : List Char) (e2 : String), svc [text] = .error e2 →
      createSingleEmbedding svc text = List.replicate 1536 (0 : ℚ) := by
  have hE : texts.isEmpty = false := by
    cases texts with
    | nil => exact absurd rfl hne
    | cons a l => rfl
  have hb : batchCreateEmbeddings svc texts
      = List.replicate texts.length (List.replicate 1536 (0 : ℚ)) := by
    simp [batchCreateEmbeddings, hE, hfail]
  refine ⟨by simp [hb], ?_, ?_⟩
  · intro v hv
    rw [hb] at hv
    exact List.eq_of_mem_replicate hv
  · intro text e2 h2
    have hb2 : batchCreateEmbeddings svc [text]
        = List.replicate 1 (List.replicate 1536 (0 : ℚ)) := by
      simp [batchCreateEmbeddings, h2]
    simp [createSingleEmbedding, hb2]

theorem claim_C10_witness :
    (batchCreateEmbeddings c10Svc ["hi".data]).length = ["hi".data].length ∧
    (∀ v ∈ batchCreateEmbeddings c10Svc ["hi".data], v = List.replicate 1536 (0 : ℚ)) ∧
    ∀ (text : List Char) (e2 : String), c10Svc [text] = .error e2 →
      createSingleEmbedding c10Svc text = List.replicate 1536 (0 : ℚ) :=
  claim_C10_embedding_fallback c10Svc ["hi".data] "service down" (by decide) rfl

/-! ## C6: hybrid dedup on `(url, chunk_number)` -/

/-- Invariant of the dedup fold of `_combine_search_results`: the seen-set
mirrors the keys of the accumulated rows, keys stay distinct, rows come
from the state or the processed list, every processed key ends up seen,
the seen-set only grows, and newly accumulated rows had unseen keys. -/
theorem combine_foldl_inv (l : List SRow) :
    ∀ (st : List (String × Nat) × List SRow),
      (∀ a, a ∈ st.1 ↔ a ∈ st.2.map ckey) → (st.2.map ckey).Nodup →
      (∀ a, a ∈ (l.foldl combineStep st).1 ↔ a ∈ (l.foldl combineStep st).2.map ckey) ∧
      ((l.foldl combineStep st).2.map ckey).Nodup ∧
      (∀ r ∈ (l.foldl combineStep st).2, r ∈ st.2 ∨ r ∈ l) ∧
      (∀ r ∈ l, ckey r ∈ (l.foldl combineStep st).1) ∧
      (∀ a ∈ st.1, a ∈ (l.foldl combineStep st).1) ∧
      (∀ r ∈ (l.foldl combineStep st).2, r ∈ st.2 ∨ ckey r ∉ st.1) := by
  induction l with
  | nil =>
    intro st hsync hnd
    exact ⟨hsync, hnd, fun r hr => Or.inl hr, by simp, fun a ha => ha,
      fun r hr => Or.inl hr⟩
  | cons x xs ih =>
    intro st hsync hnd
    by_cases hc : st.1.contains (ckey x) = true
    · have hc' : st.1.contains (x.url, x.chunkNumber) = true := hc
      have hst : combineStep st x = st := by
        simp only [combineStep]
        rw [if_pos hc']
      have hkx : ckey x ∈ st.1 := by simpa using hc
      simp only [List.foldl_cons, hst]
      obtain ⟨s1, s2, s3, s4, s5, s6⟩ := ih st hsync hnd
      refine ⟨s1, s2, ?_, ?_, s5, s6⟩
      · intro r hr
        rcases s3 r hr with h | h
        · exact Or.inl h
        · exact Or.inr (List.mem_cons_of_mem x h)
      · intro r hr
        rcases List.mem_cons.mp hr with rfl | hr2
        · exact s5 _ hkx
        · exact s4 r hr2
    · have hc' : ¬ st.1.contains (x.url, x.chunkNumber) = true := hc
      have hst : combineStep st x = (ckey x :: st.1, st.2 ++ [x]) := by
        show (if st.1.contains (x.url, x.chunkNumber) = true then st
          else ((x.url, x.chunkNumber) :: st.1, st.2 ++ [x])) = _
        rw [if_neg hc']
        rfl
      have hkx : ckey x ∉ st.1 := by simpa using hc
      have hsync2 : ∀ a, a ∈ (ckey x :: st.1, st.2 ++ [x]).1 ↔
          a ∈ (ckey x :: st.1, st.2 ++ [x]).2.map ckey := by
        intro a
        simp only [List.map_append, List.map_cons, List.map_nil, List.mem_cons,
          List.mem_append]
        constructor
        · rintro (rfl | h)
          · exact Or.inr (by simp)
          · exact Or.inl ((hsync a).mp h)
        · rintro (h | h)
          · exact Or.inr ((hsync a).mpr h)
          · simp at h
            exact Or.inl h
      have hnd2 : ((ckey x :: st.1, st.2 ++ [x]).2.map ckey).Nodup := by
        simp only [List.map_append, List.map_cons, List.map_nil]
        rw [List.nodup_append]
        refine ⟨hnd, by simp, ?_⟩
        intro a ha
        simp only [List.mem_cons, List.not_mem_nil, or_false]
        intro heq
        subst heq
        exact hkx ((hsync _).mpr ha)
      simp only [List.foldl_cons, hst]
      obtain ⟨s1, s2, s3, s4, s5, s6⟩ := ih (ckey x :: st.1, st.2 ++ [x]) hsync2 hnd2
      refine ⟨s1, s2, ?_, ?_, ?_, ?_⟩
      · intro r hr
        rcases s3 r hr with h | h
        · rcases List.mem_append.mp h with h2 | h2
          · exact Or.inl h2
          · simp at h2
            exact Or.inr (h2 ▸ List.mem_cons_self x xs)
        · exact Or.inr (List.mem_cons_of_mem x h)
      · intro r hr
        rcases List.mem_cons.mp hr with rfl | hr2
        · exact s5 _ (List.mem_cons_self _ _)
        · exact s4 r hr2
      · intro a ha
        exact s5 a (List.mem_cons_of_mem _ ha)
      · intro r hr
        rcases s6 r hr with h | h
        · rcases List.mem_append.mp h with h2 | h2
          · exact Or.inl h2
          · simp at h2
            subst h2
            exact Or.inr hkx
        · exact Or.inr (fun hmem => h (List.mem_cons_of_mem _ hmem))

/-- C6: the combined result of `_combine_search_results` holds each
`(url, chunk_number)` key of either input exactly once (distinct keys plus
coverage), every combined row comes from one of the inputs, and a combined
row whose key occurs among the vector results is itself a vector result
(vector variant preferred). -/
theorem claim_C6_hybrid_dedupe (v k : List SRow) :
    ((combineSearchResults v k).map ckey).Nodup ∧
    (∀ r, (r ∈ v ∨ r ∈ k) → ckey r ∈ (combineSearchResults v k).map ckey) ∧
    (∀ r ∈ combineSearchResults v k, r ∈ v ∨ r ∈ k) ∧
    (∀ r ∈ combineSearchResults v k, ckey r ∈ v.map ckey → r ∈ v) := by
  have base1 : ∀ a, a ∈ (([], []) : List (String × Nat) × List SRow).1 ↔
      a ∈ (([], []) : List (String × Nat) × List SRow).2.map ckey := by simp
  have base2 : ((([], []) : List (String × Nat) × List SRow).2.map ckey).Nodup := by simp
  obtain ⟨p1, p2, p3, p4, p5, p6⟩ := combine_foldl_inv v ([], []) base1 base2
  obtain ⟨q1, q2, q3, q4, q5, q6⟩ :=
    combine_foldl_inv k (v.foldl combineStep ([], [])) p1 p2
  have hres : combineSearchResults v k
      = (k.foldl combineStep (v.foldl combineStep ([], []))).2 := rfl
  have hphase1 : ∀ r ∈ (v.foldl combineStep ([], [])).2, r ∈ v := by
    intro r hr
    rcases p3 r hr with h | h
    · simp at h
    · exact h
  refine ⟨hres ▸ q2, ?_, ?_, ?_⟩
  · intro r hr
    rw [hres, ← q1]
    rcases hr with h | h
    · exact q5 _ (p4 r h)
    · exact q4 r h
  · intro r hr
    rw [hres] at hr
    rcases q3 r hr with h | h
    · exact Or.inl (hphase1 r h)
    · exact Or.inr h
  · intro r hr hkey
    rw [hres] at hr
    rcases q6 r hr with h | h
    · exact hphase1 r h
    · exfalso
      rcases List.mem_map.mp hkey with ⟨rv, hrv, hkeq⟩
      exact h (hkeq ▸ p4 rv hrv)

theorem claim_C6_witness :
    ckey (c6Row "a" 0 1) ∈
      (combineSearchResults [c6Row "a" 0 1] [c6Row "a" 0 (1/2), c6Row "b" 1 (1/2)]).map ckey :=
  (claim_C6_hybrid_dedupe [c6Row "a" 0 1] [c6Row "a" 0 (1/2), c6Row "b" 1 (1/2)]).2.1
    (c6Row "a" 0 1) (Or.inl (List.mem_singleton.mpr rfl))

/-! ## C5: search degrades gracefully, never raises -/

theorem semanticSearchDocuments_ok (env : SearchEnv) (q : List Char) (mc : Nat)
    (f : Option MetaFilter) : ∃ rows, semanticSearchDocuments env q mc f = .ok rows := by
  cases h : env.matchPages (createSingleEmbedding env.embedBatch q) mc f with
  | error e => exact ⟨[], by simp [semanticSearchDocuments, h]⟩
  | ok rows => exact ⟨rows, by simp [semanticSearchDocuments, h]⟩

/-- C5: `improved_semantic_search` never raises to the caller (its embedded
exception channel is always `ok`), and when both vector-search stages fail
it returns the empty result list. -/
theorem claim_C5_search_never_raises (env : SearchEnv) (query : List Char)
    (matchCount : Nat) (filterMeta : Option MetaFilter) (thr : ℚ) (rr : Bool) :
    (improvedSemanticSearch env query matchCount filterMeta thr rr).isOk = true ∧
    ((∀ emb c fl, ∃ s, env.enhancedMatch emb c fl thr = .error s) →
     (∀ emb c fl, ∃ s, env.matchPages emb c fl = .error s) →
     improvedSemanticSearch env query matchCount filterMeta thr rr = .ok []) := by
  constructor
  · unfold improvedSemanticSearch
    cases hb : improvedSemanticSearchBody env query matchCount filterMeta thr rr with
    | ok r => rfl
    | error e =>
      obtain ⟨rows, hrows⟩ := semanticSearchDocuments_ok env query matchCount filterMeta
      rw [hrows]
      rfl
  · intro h1 h2
    have henh : ∀ (qq : List Char) (ic : Nat),
        enhancedVectorSearch env qq ic filterMeta thr = .ok [] := by
      intro qq ic
      obtain ⟨s, hs⟩ := h1 (createSingleEmbedding env.embedBatch qq) ic filterMeta
      obtain ⟨s2, hs2⟩ := h2 (createSingleEmbedding env.embedBatch qq) ic filterMeta
      simp [enhancedVectorSearch, hs, semanticSearchDocuments, hs2]
    have hbody : improvedSemanticSearchBody env query matchCount filterMeta thr rr
        = .ok [] := by
      unfold improvedSemanticSearchBody
      dsimp only
      rw [henh]
      rfl
    simp [improvedSemanticSearch, hbody]

theorem claim_C5_witness :
    (improvedSemanticSearch c5Env "auth api".data 10 none (3/10) true).isOk = true ∧
    improvedSemanticSearch c5Env "auth api".data 10 none (3/10) true = .ok [] := by
  have h := claim_C5_search_never_raises c5Env "auth api".data 10 none (3/10) true
  exact ⟨h.1, h.2 (fun emb c fl => ⟨"down", rfl⟩) (fun emb c fl => ⟨"down", rfl⟩)⟩

/-! ## C7: rerank scoring, ordering and truncation -/

theorem sortByKeyDesc_pairwise (key : α → ℚ) (l : List α) :
    (pySortBy (fun a b => decide (key b ≤ key a)) l).Pairwise
      (fun a b => key b ≤ key a) := by
  have h := pySortBy_pairwise (fun a b => decide (key b ≤ key a))
    (fun a b => by
      rcases le_total (key b) (key a) with h | h
      · exact Or.inl (decide_eq_true h)
      · exact Or.inr (decide_eq_true h))
    (fun a b c hab hbc => decide_eq_true
      (le_trans (of_decide_eq_true hbc) (of_decide_eq_true hab)))
    l
  exact h.imp of_decide_eq_true

theorem sortByKeyDesc_perm (key : α → ℚ) (l : List α) :
    (pySortBy (fun a b => decide (key b ≤ key a)) l).Perm l :=
  pySortBy_perm _ l

/-- C7: with reranking enabled the reranker assigns every combined result
`rerank_score = similarity + 0.1·(#exact query-term matches in content)
+ 0.15·(header match) + 0.1·(section ∈ {info, endpoint})`, sorts by that
score descending, and truncates to `matchCount`; consequently a result
whose `metadata.headers` contains a query term is ranked strictly above an
otherwise-equal result without a header match. -/
theorem claim_C7_rerank_ordering (q : List Char) (results : List SRow) (k : Nat) :
    (rerankResults q results k).length = min k results.length ∧
    (∀ r ∈ rerankResults q results k, ∃ r0 ∈ results,
      r = { r0 with rerankScore := some (r0.similarity
              + (exactTermCount q r0 : ℚ) * (1/10)
              + (if headerHit q r0 then 15/100 else 0)
              + (if sectionHit r0 then 1/10 else 0)) }) ∧
    (rerankResults q results k).Pairwise (fun a b => scoreKey b ≤ scoreKey a) ∧
    (∀ r1 ∈ results, ∀ r2 ∈ results,
      r1.similarity = r2.similarity → r1.content = r2.content →
      r1.metadata.sectionTag = r2.metadata.sectionTag →
      headerHit q r1 = true → headerHit q r2 = false →
      ∀ (i j : Fin (rerankResults q results k).length),
        (rerankResults q results k).get i
          = { r1 with rerankScore := some (rerankScoreOf q r1) } →
        (rerankResults q results k).get j
          = { r2 with rerankScore := some (rerankScoreOf q r2) } →
        (i : Nat) < (j : Nat)) := by
  have hperm := sortByKeyDesc_perm scoreKey
    (results.map (fun r => { r with rerankScore := some (rerankScoreOf q r) }))
  have hpair := sortByKeyDesc_pairwise scoreKey
    (results.map (fun r => { r with rerankScore := some (rerankScoreOf q r) }))
  have hsub : (rerankResults q results k).Sublist
      (pySortBy (fun a b => decide (scoreKey b ≤ scoreKey a))
        (results.map (fun r => { r with rerankScore := some (rerankScoreOf q r) }))) :=
    List.take_sublist k _
  refine ⟨?_, ?_, ?_, ?_⟩
  · show (List.take k _).length = _
    rw [List.length_take, hperm.length_eq, List.length_map]
  · intro r hr
    have hmem : r ∈ results.map (fun r => { r with rerankScore := some (rerankScoreOf q r) }) :=
      hperm.mem_iff.mp (hsub.subset hr)
    rcases List.mem_map.mp hmem with ⟨r0, hr0, heq⟩
    exact ⟨r0, hr0, heq.symm⟩
  · exact hpair.sublist hsub |>.imp id |>.imp id
  · intro r1 h1 r2 h2 hsim hcont hsec hh1 hh2 i j hi hj
    have hcount : exactTermCount q r1 = exactTermCount q r2 := by
      unfold exactTermCount
      rw [hcont]
    have hsect : sectionHit r1 = sectionHit r2 := by
      unfold sectionHit
      rw [hsec]
    have hlt : rerankScoreOf q r2 < rerankScoreOf q r1 := by
      unfold rerankScoreOf
      rw [hh1, hh2, hsim, hcount, hsect]
      simp only [if_true, Bool.false_eq_true, if_false]
      have h15 : (0 : ℚ) < 15/100 := by norm_num
      linarith
    have hpairT : (rerankResults q results k).Pairwise
        (fun a b => scoreKey b ≤ scoreKey a) := hpair.sublist hsub
    rcases Nat.lt_trichotomy (i : Nat) (j : Nat) with h | h | h
    · exact h
    · exfalso
      have hij : i = j := Fin.ext h
      rw [hij, hj] at hi
      have : rerankScoreOf q r1 = rerankScoreOf q r2 := by
        have hsc := congrArg SRow.rerankScore hi
        simpa using hsc.symm
      exact absurd this (ne_of_gt hlt)
    · exfalso
      have hR := List.pairwise_iff_get.mp hpairT j i h
      rw [hi, hj] at hR
      have hR2 : rerankScoreOf q r1 ≤ rerankScoreOf q r2 := hR
      exact absurd hR2 (not_le_of_lt hlt)

theorem claim_C7_witness :
    (rerankResults "auth".data [c7r2, c7r1] 2).length = min 2 [c7r2, c7r1].length ∧
    ∃ r0 ∈ [c7r2, c7r1],
      { c7r1 with rerankScore := some (rerankScoreOf "auth".data c7r1) }
        = { r0 with rerankScore := some (r0.similarity
              + (exactTermCount "auth".data r0 : ℚ) * (1/10)
              + (if headerHit "auth".data r0 then 15/100 else 0)
              + (if sectionHit r0 then 1/10 else 0)) } := by
  have hsc1 : rerankScoreOf "auth".data c7r1 = 13/20 := by
    have h1 : exactTermCount "auth".data c7r1 = 0 := by decide
    have h2 : headerHit "auth".data c7r1 = true := by decide
    have h3 : sectionHit c7r1 = false := by decide
    unfold rerankScoreOf
    rw [h1, h2, h3]
    show (1 : ℚ)/2 + ((0 : Nat) : ℚ) * (1/10) + 15/100 + 0 = 13/20
    norm_num
  have hsc2 : rerankScoreOf "auth".data c7r2 = 1/2 := by
    have h1 : exactTermCount "auth".data c7r2 = 0 := by decide
    have h2 : headerHit "auth".data c7r2 = false := by decide
    have h3 : sectionHit c7r2 = false := by decide
    unfold rerankScoreOf
    rw [h1, h2, h3]
    show (1 : ℚ)/2 + ((0 : Nat) : ℚ) * (1/10) + 0 + 0 = 1/2
    norm_num
  have hcmp : decide (scoreKey { c7r1 with rerankScore := some (rerankScoreOf "auth".data c7r1) }
      ≤ scoreKey { c7r2 with rerankScore := some (rerankScoreOf "auth".data c7r2) }) = false := by
    apply decide_eq_false
    show ¬ (rerankScoreOf "auth".data c7r1 ≤ rerankScoreOf "auth".data c7r2)
    rw [hsc1, hsc2]
    norm_num
  have hout : rerankResults "auth".data [c7r2, c7r1] 2
      = [{ c7r1 with rerankScore := some (rerankScoreOf "auth".data c7r1) },
         { c7r2 with rerankScore := some (rerankScoreOf "auth".data c7r2) }] := by
    unfold rerankResults pySortBy
    simp only [List.map_cons, List.map_nil, List.foldl_cons, List.foldl_nil]
    rw [show insertStable (fun a b => decide (scoreKey b ≤ scoreKey a))
        { c7r2 with rerankScore := some (rerankScoreOf "auth".data c7r2) } []
      = [{ c7r2 with rerankScore := some (rerankScoreOf "auth".data c7r2) }] from rfl]
    unfold insertStable
    rw [hcmp]
    rfl
  have hmem : { c7r1 with rerankScore := some (rerankScoreOf "auth".data c7r1) }
      ∈ rerankResults "auth".data [c7r2, c7r1] 2 := by
    rw [hout]
    exact List.mem_cons_self _ _
  exact ⟨(claim_C7_rerank_ordering "auth".data [c7r2, c7r1] 2).1,
    (claim_C7_rerank_ordering "auth".data [c7r2, c7r1] 2).2.1 _ hmem⟩

/-! ## C1: idempotent no-op of checkAndUpdate -/

theorem getLatestVersion_attained (pages : List PageRow) (url : String)
    (h : getLatestVersion pages url ≠ 0) :
    ∃ r ∈ pages, r.url = url ∧ r.version = getLatestVersion pages url := by
  unfold getLatestVersion at h ⊢
  rcases foldl_max_mem ((pages.filter (fun r => r.url = url)).map (·.version)) 0 with h0 | hmem
  · exact absurd h0 h
  · rcases List.mem_map.mp hmem with ⟨r, hr, hv⟩
    have hf := List.mem_filter.mp hr
    exact ⟨r, hf.1, of_decide_eq_true hf.2, hv⟩

theorem selectVersionRows_ne_nil (pages : List PageRow) (url : String)
    (h : getLatestVersion pages url ≠ 0) :
    selectVersionRows pages url (getLatestVersion pages url) ≠ [] := by
  obtain ⟨r, hr, hu, hv⟩ := getLatestVersion_attained pages url h
  unfold selectVersionRows
  intro hnil
  have hmem : r ∈ pages.filter
      (fun rr => decide (rr.url = url ∧ rr.version = getLatestVersion pages url)) :=
    List.mem_filter.mpr ⟨hr, decide_eq_true ⟨hu, hv⟩⟩
  have hperm := pySortBy_perm
    (fun a b => decide (a.chunkNumber ≤ b.chunkNumber))
    (pages.filter (fun rr => decide (rr.url = url ∧ rr.version = getLatestVersion pages url)))
  have : r ∈ pySortBy (fun a b => decide (a.chunkNumber ≤ b.chunkNumber))
      (pages.filter (fun rr => decide (rr.url = url ∧ rr.version = getLatestVersion pages url))) :=
    hperm.mem_iff.mpr hmem
  rw [hnil] at this
  exact absurd this (List.not_mem_nil r)

/-- C1: if the stored latest version reconstructs to the fetched content,
`check_and_update_document_changes` called twice in a row with the same
fetched content returns `changes_found = 0` on the second call, leaves the
store untouched and does not advance the version. -/
theorem claim_C1_idempotent_no_op (env : WorkEnv) (db : DB) (url : String)
    (fetch : FetchResult) (now now2 : String)
    (hfs : fetch.success = true) (hmd : fetch.markdown ≠ [])
    (hv : getLatestVersion db.pages url ≠ 0)
    (hrec : reconstructText db.pages url (getLatestVersion db.pages url) = fetch.markdown) :
    (checkAndUpdateDocumentChanges env
      (checkAndUpdateDocumentChanges env db url fetch now).2 url fetch now2).1.changes_found
        = some 0 ∧
    (checkAndUpdateDocumentChanges env
      (checkAndUpdateDocumentChanges env db url fetch now).2 url fetch now2).1.success = true ∧
    (checkAndUpdateDocumentChanges env
      (checkAndUpdateDocumentChanges env db url fetch now).2 url fetch now2).2 = db ∧
    getLatestVersion (checkAndUpdateDocumentChanges env
      (checkAndUpdateDocumentChanges env db url fetch now).2 url fetch now2).2.pages url
        = getLatestVersion db.pages url := by
  have hone : ∀ ts : String, checkAndUpdateDocumentChanges env db url fetch ts
      = ({ success := true, url := url, message := some "No changes detected",
           current_version := some (getLatestVersion db.pages url),
           changes_found := some 0 }, db) := by
    intro ts
    unfold checkAndUpdateDocumentChanges
    dsimp only
    have hc1 : ¬ (¬ fetch.success = true ∨ fetch.markdown.isEmpty = true) := by
      rw [hfs]
      simp only [not_true, false_or]
      cases hm : fetch.markdown with
      | nil => exact absurd hm hmd
      | cons a l => simp
    rw [if_neg hc1, if_neg hv]
    have hrowsne := selectVersionRows_ne_nil db.pages url hv
    have hrows : (selectVersionRows db.pages url (getLatestVersion db.pages url)).isEmpty
        = false := by
      cases hsel : selectVersionRows db.pages url (getLatestVersion db.pages url) with
      | nil => exact absurd hsel hrowsne
      | cons a l => rfl
    rw [hrows]
    simp only [Bool.false_eq_true, if_false]
    unfold reconstructText at hrec
    rw [if_pos hrec]
  rw [hone now]
  rw [hone now2]
  exact ⟨rfl, rfl, rfl, rfl⟩

theorem claim_C1_witness :
    (checkAndUpdateDocumentChanges c1Env
      (checkAndUpdateDocumentChanges c1Env ⟨[c1Row], []⟩ "u" ⟨true, "Hello doc.".data⟩ "t1").2
      "u" ⟨true, "Hello doc.".data⟩ "t2").1.changes_found = some 0 ∧
    (checkAndUpdateDocumentChanges c1Env
      (checkAndUpdateDocumentChanges c1Env ⟨[c1Row], []⟩ "u" ⟨true, "Hello doc.".data⟩ "t1").2
      "u" ⟨true, "Hello doc.".data⟩ "t2").1.success = true ∧
    (checkAndUpdateDocumentChanges c1Env
      (checkAndUpdateDocumentChanges c1Env ⟨[c1Row], []⟩ "u" ⟨true, "Hello doc.".data⟩ "t1").2
      "u" ⟨true, "Hello doc.".data⟩ "t2").2 = (⟨[c1Row], []⟩ : DB) ∧
    getLatestVersion (checkAndUpdateDocumentChanges c1Env
      (checkAndUpdateDocumentChanges c1Env ⟨[c1Row], []⟩ "u" ⟨true, "Hello doc.".data⟩ "t1").2
      "u" ⟨true, "Hello doc.".data⟩ "t2").2.pages "u"
        = getLatestVersion ([c1Row] : List PageRow) "u" :=
  claim_C1_idempotent_no_op c1Env ⟨[c1Row], []⟩ "u" ⟨true, "Hello doc.".data⟩ "t1" "t2"
    rfl (by decide) (by decide) (by decide)

/-! ## Batch-upsert lemmas (for C3 and C9) -/

theorem batchCreateEmbeddings_length
    (svc : List (List Char) → Except String (List (List ℚ)))
    (hemb : ∀ ts vs, svc ts = .ok vs → vs.length = ts.length)
    (cc : List (List Char)) :
    (batchCreateEmbeddings svc cc).length = cc.length := by
  unfold batchCreateEmbeddings
  cases cc with
  | nil => rfl
  | cons a l =>
    simp only [List.isEmpty_cons, Bool.false_eq_true, if_false]
    cases hs : svc (a :: l) with
    | ok vs => exact hemb _ _ hs
    | error e => simp

theorem buildRows_spec :
    ∀ (b : List InsertItem) (cc : List (List Char)) (es : List (List ℚ)),
      cc.length = b.length → cc.length ≤ es.length →
      ((List.zipWith (fun (p : InsertItem × List Char) e =>
          ({ url := p.1.url, chunkNumber := p.1.chunkNumber, content := p.2,
             chunkSize := p.2.length, meta := p.1.meta, embedding := e,
             version := 1 } : PageRow)) (b.zip cc) es).map (·.url) = b.map (·.url) ∧
       (List.zipWith (fun (p : InsertItem × List Char) e =>
          ({ url := p.1.url, chunkNumber := p.1.chunkNumber, content := p.2,
             chunkSize := p.2.length, meta := p.1.meta, embedding := e,
             version := 1 } : PageRow)) (b.zip cc) es).map (·.chunkNumber)
         = b.map (·.chunkNumber) ∧
       (List.zipWith (fun (p : InsertItem × List Char) e =>
          ({ url := p.1.url, chunkNumber := p.1.chunkNumber, content := p.2,
             chunkSize := p.2.length, meta := p.1.meta, embedding := e,
             version := 1 } : PageRow)) (b.zip cc) es).map (·.content) = cc ∧
       ∀ r ∈ (List.zipWith (fun (p : InsertItem × List Char) e =>
          ({ url := p.1.url, chunkNumber := p.1.chunkNumber, content := p.2,
             chunkSize := p.2.length, meta := p.1.meta, embedding := e,
             version := 1 } : PageRow)) (b.zip cc) es), r.version = 1) := by
  intro b
  induction b with
  | nil =>
    intro cc es h1 h2
    cases cc with
    | cons c ct => simp at h1
    | nil => simp
  | cons it bt ih =>
    intro cc es h1 h2
    cases cc with
    | nil => simp at h1
    | cons c ct =>
      cases es with
      | nil => simp at h2
      | cons e et =>
        have h1' : ct.length = bt.length := by simpa using h1
        have h2' : ct.length ≤ et.length := by simpa using h2
        obtain ⟨q1, q2, q3, q4⟩ := ih ct et h1' h2'
        refine ⟨?_, ?_, ?_, ?_⟩
        · simpa using q1
        · simpa using q2
        · simpa using q3
        · intro r hr
          rcases List.mem_cons.mp hr with rfl | hr2
          · rfl
          · exact q4 r hr2

theorem insertBatch_spec (env : WorkEnv) (urlToFull : String → List Char)
    (hemb : ∀ ts vs, env.embedBatch ts = .ok vs → vs.length = ts.length)
    (b : List InsertItem) :
    ∃ rows, insertBatch env urlToFull b = some rows ∧
      rows.map (·.url) = b.map (·.url) ∧
      rows.map (·.chunkNumber) = b.map (·.chunkNumber) ∧
      (env.useContextual = false → rows.map (·.content) = b.map (·.content)) ∧
      ∀ r ∈ rows, r.version = 1 := by
  unfold insertBatch
  dsimp only
  have hccLen :
      (if env.useContextual = true then
        (if (env.contextualize (b.map (fun it => (it.url, it.content, urlToFull it.url)))).length
            ≠ (b.map (·.content)).length
         then b.map (·.content)
         else env.contextualize (b.map (fun it => (it.url, it.content, urlToFull it.url))))
       else b.map (·.content)).length = b.length := by
    by_cases huc : env.useContextual = true
    · rw [if_pos huc]
      by_cases hne : (env.contextualize
          (b.map (fun it => (it.url, it.content, urlToFull it.url)))).length
          ≠ (b.map (·.content)).length
      · rw [if_pos hne, List.length_map]
      · rw [if_neg hne]
        push_neg at hne
        rw [hne, List.length_map]
    · rw [if_neg huc, List.length_map]
  set cc := (if env.useContextual = true then
        (if (env.contextualize (b.map (fun it => (it.url, it.content, urlToFull it.url)))).length
            ≠ (b.map (·.content)).length
         then b.map (·.content)
         else env.contextualize (b.map (fun it => (it.url, it.content, urlToFull it.url))))
       else b.map (·.content)) with hcc
  have hesLen : (batchCreateEmbeddings env.embedBatch cc).length = cc.length :=
    batchCreateEmbeddings_length env.embedBatch hemb cc
  unfold buildBatchData
  rw [if_neg (by rw [hesLen]; exact lt_irrefl _)]
  obtain ⟨q1, q2, q3, q4⟩ := buildRows_spec b cc (batchCreateEmbeddings env.embedBatch cc)
    hccLen (le_of_eq hesLen.symm)
  refine ⟨_, rfl, q1, q2, ?_, q4⟩
  intro huc
  rw [q3, hcc, if_neg (by rw [huc]; exact Bool.false_ne_true)]

theorem runBatches_spec (env : WorkEnv) (urlToFull : String → List Char)
    (hemb : ∀ ts vs, env.embedBatch ts = .ok vs → vs.length = ts.length) :
    ∀ (bs : List (List InsertItem)) (acc : List PageRow),
      ∃ rows, runBatches env urlToFull acc bs = .ok (acc ++ rows) ∧
        rows.map (·.url) = bs.flatten.map (·.url) ∧
        rows.map (·.chunkNumber) = bs.flatten.map (·.chunkNumber) ∧
        (env.useContextual = false → rows.map (·.content) = bs.flatten.map (·.content)) ∧
        ∀ r ∈ rows, r.version = 1 := by
  intro bs
  induction bs with
  | nil =>
    intro acc
    exact ⟨[], by simp [runBatches], by simp, by simp, by simp, by simp⟩
  | cons b rest ih =>
    intro acc
    obtain ⟨rowsB, hB, hu, hc, hcont, hv⟩ := insertBatch_spec env urlToFull hemb b
    obtain ⟨rowsR, hR, hu2, hc2, hcont2, hv2⟩ := ih (acc ++ rowsB)
    refine ⟨rowsB ++ rowsR, ?_, ?_, ?_, ?_, ?_⟩
    · show runBatches env urlToFull acc (b :: rest) = _
      unfold runBatches
      rw [hB]
      show runBatches env urlToFull (acc ++ rowsB) rest = _
      rw [hR, List.append_assoc]
    · simp [hu, hu2]
    · simp [hc, hc2]
    · intro huc
      simp [hcont huc, hcont2 huc]
    · intro r hr
      rcases List.mem_append.mp hr with h | h
      · exact hv r h
      · exact hv2 r h

theorem pyGroupsAux_flatten :
    ∀ (fuel : Nat) (n : Nat) (l : List α), 0 < n → l.length ≤ fuel →
      (pyGroupsAux fuel n l).flatten = l := by
  intro fuel
  induction fuel with
  | zero =>
    intro n l hn hl
    have : l = [] := List.length_eq_zero.mp (Nat.le_zero.mp hl)
    subst this
    rfl
  | succ f ih =>
    intro n l hn hl
    unfold pyGroupsAux
    cases l with
    | nil => rfl
    | cons a t =>
      simp only [List.isEmpty_cons, Bool.false_eq_true, if_false]
      have hrec := ih n ((a :: t).drop n) hn
        (by
          rw [List.length_drop]
          have := List.length_cons a t ▸ hl
          omega)
      simp only [List.flatten_cons, hrec]
      exact List.take_append_drop n (a :: t)

theorem pyGroupsAux_mem :
    ∀ (fuel : Nat) (n : Nat) (l : List α) (b : List α),
      b ∈ pyGroupsAux fuel n l → ∀ x ∈ b, x ∈ l := by
  intro fuel
  induction fuel with
  | zero => intro n l b hb; simp [pyGroupsAux] at hb
  | succ f ih =>
    intro n l b hb x hx
    unfold pyGroupsAux at hb
    cases l with
    | nil => simp at hb
    | cons a t =>
      simp only [List.isEmpty_cons, Bool.false_eq_true, if_false] at hb
      rcases List.mem_cons.mp hb with rfl | hb2
      · exact (List.take_sublist n (a :: t)).subset hx
      · exact (List.drop_sublist n (a :: t)).subset (ih n _ b hb2 x hx)

/-- The complete effect of `batch_upsert_documents` on the success path. -/
theorem batchUpsert_spec (env : WorkEnv) (pages : List PageRow)
    (items : List InsertItem) (urlToFull : String → List Char) (bs : Nat)
    (hbs : 0 < bs)
    (hemb : ∀ ts vs, env.embedBatch ts = .ok vs → vs.length = ts.length) :
    ∃ newRows, batchUpsertDocuments env pages items urlToFull bs
        = .ok (pages.filter (fun r => ¬ (items.map (·.url)).contains r.url) ++ newRows) ∧
      newRows.map (·.url) = items.map (·.url) ∧
      newRows.map (·.chunkNumber) = items.map (·.chunkNumber) ∧
      (env.useContextual = false → newRows.map (·.content) = items.map (·.content)) ∧
      ∀ r ∈ newRows, r.version = 1 := by
  obtain ⟨rows, hrun, hu, hc, hcont, hv⟩ := runBatches_spec env urlToFull hemb
    (pyGroups bs items) (pages.filter (fun r => ¬ (items.map (·.url)).contains r.url))
  have hflat : (pyGroups bs items).flatten = items :=
    pyGroupsAux_flatten items.length bs items hbs le_rfl
  rw [hflat] at hu hc hcont
  exact ⟨rows, hrun, hu, hc, hcont, hv⟩

/-! ## C3: initial version store -/

theorem mkItems_map_content (url : String) (chunks : List (List Char)) (v : Nat) :
    (mkItems url chunks v).map (·.content) = chunks := by
  unfold mkItems
  rw [List.map_map]
  exact List.enum_map_snd chunks

theorem mkItems_map_chunkNumber (url : String) (chunks : List (List Char)) (v : Nat) :
    (mkItems url chunks v).map (·.chunkNumber) = List.range chunks.length := by
  unfold mkItems
  rw [List.map_map]
  exact List.enum_map_fst chunks

theorem mkItems_url_eq (url : String) (chunks : List (List Char)) (v : Nat) :
    ∀ x ∈ (mkItems url chunks v).map (·.url), x = url := by
  unfold mkItems
  intro x hx
  rw [List.map_map] at hx
  rcases List.mem_map.mp hx with ⟨p, hp, hpe⟩
  exact hpe.symm

/-- C3 (amended): on a url with no stored history, a successful
`check_and_update_document_changes` persists the freshly chunked content
as version 1 (the chunks, in order, with chunk numbers 0,1,2,..., under the
url) and reports success with version 1 — but emits NO ChangeRecord: the
`document_changes` table is left untouched (the `added`/`high` record of
the spec is written only by the separate `monitor_documentation` tool). -/
theorem claim_C3_initial_store (env : WorkEnv) (db : DB) (url : String)
    (fetch : FetchResult) (now : String)
    (hfs : fetch.success = true) (hmd : fetch.markdown ≠ [])
    (hv0 : getLatestVersion db.pages url = 0)
    (hemb : ∀ ts vs, env.embedBatch ts = .ok vs → vs.length = ts.length)
    (hctx : env.useContextual = false) :
    (checkAndUpdateDocumentChanges env db url fetch now).1.success = true ∧
    (checkAndUpdateDocumentChanges env db url fetch now).1.version = some 1 ∧
    (checkAndUpdateDocumentChanges env db url fetch now).2.changes = db.changes ∧
    ∃ newRows,
      (checkAndUpdateDocumentChanges env db url fetch now).2.pages
        = db.pages.filter (fun r =>
            ¬ ((mkItems url (semanticChunk defaultChunkCfg fetch.markdown) 1).map
                (·.url)).contains r.url) ++ newRows ∧
      newRows.map (·.content) = semanticChunk defaultChunkCfg fetch.markdown ∧
      newRows.map (·.chunkNumber)
        = List.range (semanticChunk defaultChunkCfg fetch.markdown).length ∧
      ∀ r ∈ newRows, r.url = url ∧ r.version = 1 := by
  have hc1 : ¬ (¬ fetch.success = true ∨ fetch.markdown.isEmpty = true) := by
    rw [hfs]
    simp only [not_true, false_or]
    cases hm : fetch.markdown with
    | nil => exact absurd hm hmd
    | cons a l => simp
  obtain ⟨newRows, hup, hu, hcn, hcont, hv1⟩ := batchUpsert_spec env db.pages
    (mkItems url (semanticChunk defaultChunkCfg fetch.markdown) 1)
    (fun u => if u = url then fetch.markdown else []) 20 (by norm_num) hemb
  have hout : checkAndUpdateDocumentChanges env db url fetch now
      = ({ success := true, url := url,
           message := some "First version of document stored", version := some 1 },
         { db with pages := db.pages.filter (fun r =>
             ¬ ((mkItems url (semanticChunk defaultChunkCfg fetch.markdown) 1).map
                 (·.url)).contains r.url) ++ newRows }) := by
    unfold checkAndUpdateDocumentChanges
    dsimp only
    rw [if_neg hc1, if_pos hv0]
    unfold storeInitialVersion
    dsimp only
    rw [hup]
  rw [hout]
  refine ⟨rfl, rfl, rfl, newRows, rfl, ?_, ?_, ?_⟩
  · rw [hcont hctx, mkItems_map_content]
  · rw [hcn, mkItems_map_chunkNumber]
  · intro r hr
    refine ⟨?_, hv1 r hr⟩
    have hmem : r.url ∈ newRows.map (·.url) := List.mem_map_of_mem _ hr
    rw [hu] at hmem
    exact mkItems_url_eq url _ 1 r.url hmem

/-- C3 counterexample to the claim as stated: from an empty store,
`check_and_update_document_changes` succeeds and stores version 1, yet the
`document_changes` table stays empty — no ChangeRecord with
`change_type = "added"` / `change_impact = "high"` is emitted. -/
theorem claim_C3_counterexample :
    (checkAndUpdateDocumentChanges c3Env ⟨[], []⟩ "u" c3Fetch "t0").1.success = true ∧
    (checkAndUpdateDocumentChanges c3Env ⟨[], []⟩ "u" c3Fetch "t0").1.version = some 1 ∧
    (checkAndUpdateDocumentChanges c3Env ⟨[], []⟩ "u" c3Fetch "t0").2.pages ≠ [] ∧
    (checkAndUpdateDocumentChanges c3Env ⟨[], []⟩ "u" c3Fetch "t0").2.changes = [] := by
  exact ⟨by decide, by decide, by decide, by decide⟩

theorem claim_C3_witness :
    (checkAndUpdateDocumentChanges c3Env ⟨[], []⟩ "u" c3Fetch "t1").1.success = true ∧
    (checkAndUpdateDocumentChanges c3Env ⟨[], []⟩ "u" c3Fetch "t1").1.version = some 1 ∧
    (checkAndUpdateDocumentChanges c3Env ⟨[], []⟩ "u" c3Fetch "t1").2.changes
      = (⟨[], []⟩ : DB).changes ∧
    ∃ newRows,
      (checkAndUpdateDocumentChanges c3Env ⟨[], []⟩ "u" c3Fetch "t1").2.pages
        = (⟨[], []⟩ : DB).pages.filter (fun r =>
            ¬ ((mkItems "u" (semanticChunk defaultChunkCfg c3Fetch.markdown) 1).map
                (·.url)).contains r.url) ++ newRows ∧
      newRows.map (·.content) = semanticChunk defaultChunkCfg c3Fetch.markdown ∧
      newRows.map (·.chunkNumber)
        = List.range (semanticChunk defaultChunkCfg c3Fetch.markdown).length ∧
      ∀ r ∈ newRows, r.url = "u" ∧ r.version = 1 :=
  claim_C3_initial_store c3Env ⟨[], []⟩ "u" c3Fetch "t1" rfl (by decide) (by decide)
    (fun ts vs h => by injection h with h2; rw [← h2]; simp) rfl

/-! ## C9: batch upsert deletes all versions of the ingested urls -/

/-- C9: a successful `batch_upsert_documents` leaves exactly the rows whose
url is not among the ingested items plus the freshly inserted rows; every
surviving row of an ingested url is one of the newly inserted rows, so
chunks persisted under earlier versions of a re-ingested url are removed. -/
theorem claim_C9_delete_then_insert (env : WorkEnv) (pages : List PageRow)
    (items : List InsertItem) (urlToFull : String → List Char) (bs : Nat)
    (pages' : List PageRow) (hbs : 0 < bs)
    (hemb : ∀ ts vs, env.embedBatch ts = .ok vs → vs.length = ts.length)
    (h : batchUpsertDocuments env pages items urlToFull bs = .ok pages') :
    ∃ newRows,
      pages' = pages.filter (fun r => ¬ (items.map (·.url)).contains r.url) ++ newRows ∧
      (∀ r ∈ newRows, r.url ∈ items.map (·.url)) ∧
      ∀ r ∈ pages', r.url ∈ items.map (·.url) → r ∈ newRows := by
  obtain ⟨newRows, hup, hu, hcn, hcont, hv⟩ := batchUpsert_spec env pages items
    urlToFull bs hbs hemb
  have hpe : pages' = pages.filter (fun r => ¬ (items.map (·.url)).contains r.url)
      ++ newRows := by
    have := h.symm.trans hup
    exact Except.ok.inj this
  refine ⟨newRows, hpe, ?_, ?_⟩
  · intro r hr
    have hmem : r.url ∈ newRows.map (·.url) := List.mem_map_of_mem _ hr
    rw [hu] at hmem
    exact hmem
  · intro r hr hurl
    rw [hpe] at hr
    rcases List.mem_append.mp hr with hk | hn
    · exfalso
      have hf := List.mem_filter.mp hk
      have hcond := of_decide_eq_true hf.2
      have hcontains : (items.map (·.url)).contains r.url = true := by
        simpa using hurl
      exact hcond hcontains
    · exact hn

theorem claim_C9_witness :
    ∃ newRows,
      ([c9RowW, c9NewRow] : List PageRow)
        = ([c9RowA, c9RowB, c9RowW] : List PageRow).filter
            (fun r => ¬ (c9Items.map (·.url)).contains r.url) ++ newRows ∧
      (∀ r ∈ newRows, r.url ∈ c9Items.map (·.url)) ∧
      ∀ r ∈ ([c9RowW, c9NewRow] : List PageRow),
        r.url ∈ c9Items.map (·.url) → r ∈ newRows :=
  claim_C9_delete_then_insert c9Env [c9RowA, c9RowB, c9RowW] c9Items (fun _ => [])
    20 [c9RowW, c9NewRow] (by norm_num)
    (fun ts vs h => by injection h with h2; rw [← h2]; simp) rfl

/-! ## C2: aggregated change record impact -/

/-- C2: evaluating `check_and_update_document_changes` at a divergence with
provider impacts `["high", "low"]` persists one aggregated record with
`change_type = "multiple"` but `change_impact = "low"`: Python's `max` on
severity strings is lexicographic (`"high" < "low" < "medium"`), while the
spec's ordering `low < medium < high` demands `"high"`. -/
theorem claim_C2_code_bug :
    (checkAndUpdateDocumentChanges c2Env c2Db "u" c2Fetch "t0").1.changes_found
      = some 2 ∧
    (checkAndUpdateDocumentChanges c2Env c2Db "u" c2Fetch "t0").2.changes.map
      (fun c => (c.change_type, c.change_impact)) = [("multiple", "low")] ∧
    pyMaxString "high" ["low"] = "low" ∧
    specSeverityMax "high" ["low"] = "high" := by
  exact ⟨by decide, by decide, by decide, by decide⟩

/-! ## C4: chunk coverage -/

theorem claim_C4_counterexample : ¬ chunkCoverageClaim ⟨10, 3, 5⟩ c4Text := by
  intro h
  obtain ⟨hne, hbound⟩ := h (by decide)
  have h20 := (hbound 0 (by decide)).2
  have hlen : (stripL ((semanticChunk ⟨10, 3, 5⟩ c4Text).getD 0 [])).length = 20 := by
    decide
  rw [hlen] at h20
  have h15 : (⟨10, 3, 5⟩ : ChunkCfg).maxChunkSize
      + (⟨10, 3, 5⟩ : ChunkCfg).overlapSize = 15 := rfl
  rw [h15] at h20
  omega

/-- C4 (amended): every chunk of `semantic_chunk` other than the only
chunk of a singleton result has trimmed length at least `min_chunk_size`
(whenever more than one chunk is returned, all of them — the final one
included — pass the minimum-length filter), and whitespace-only input
yields no chunks at all.  No upper bound holds: an unsplittable single
sentence longer than `max_chunk_size` is emitted whole, even as a
non-final chunk. -/
theorem claim_C4_chunk_bounds (cfg : ChunkCfg) (text : List Char) :
    (0 < cfg.minChunkSize → stripL text = [] → semanticChunk cfg text = []) ∧
    (∀ x ∈ semanticChunk cfg text, 1 < (semanticChunk cfg text).length →
      cfg.minChunkSize ≤ (stripL x).length) := by
  constructor
  · intro hmin hstrip
    unfold semanticChunk
    dsimp only
    rw [if_pos (Or.inr (by rw [hstrip]; exact hmin))]
    rw [if_pos (by rw [hstrip]; rfl)]
  · intro x hx hlen
    by_cases h1 : (text.isEmpty = true ∨ (stripL text).length < cfg.minChunkSize)
    · have hres : semanticChunk cfg text
          = if (stripL text).isEmpty then [] else [stripL text] := by
        unfold semanticChunk
        dsimp only
        rw [if_pos h1]
      rw [hres] at hlen
      have hle : (if (stripL text).isEmpty then ([] : List (List Char))
          else [stripL text]).length ≤ 1 := by
        split <;> simp
      omega
    · have hres : semanticChunk cfg text
          = addOverlapAndClean cfg ((splitByHeaders text).map (fun s =>
              if s.length ≤ cfg.maxChunkSize then [stripL s]
              else splitByParagraphsAndSentences cfg s)).flatten := by
        unfold semanticChunk
        dsimp only
        rw [if_neg h1]
      rw [hres] at hx hlen
      unfold addOverlapAndClean at hx hlen
      by_cases h2 : ((splitByHeaders text).map (fun s =>
          if s.length ≤ cfg.maxChunkSize then [stripL s]
          else splitByParagraphsAndSentences cfg s)).flatten.length ≤ 1
      · rw [if_pos h2] at hlen
        omega
      · rw [if_neg h2] at hx
        dsimp only at hx
        exact of_decide_eq_true (List.mem_filter.mp hx).2

theorem claim_C4_witness :
    semanticChunk ⟨10, 3, 5⟩ " ".data = [] ∧
    (3 : Nat) ≤ (stripL "aaaaaaaaaaaaaaaaaaaa".data).length := by
  constructor
  · exact (claim_C4_chunk_bounds ⟨10, 3, 5⟩ " ".data).1 (by decide) (by decide)
  · exact (claim_C4_chunk_bounds ⟨10, 3, 5⟩ c4Text).2 "aaaaaaaaaaaaaaaaaaaa".data
      (by decide) (by decide)

end DocMonitor
